import Mathlib

/-!
# SgCG.py — shallow embedding and verification

This file embeds the loss utilities of `SgCG.py` (contrastive losses for
semantic segmentation under domain shift) into Lean 4 and proves the
specification claims about them.

Modelling conventions:
* tensors are (nested) lists; real-valued entries are `ℝ`, labels are `ℕ`;
* the label downscaler works with exact occupancy ratios in `ℚ`;
* fallible operations (the `ValueError` of `weight_reduce_loss`, the invalid
  reduction string of `reduce_loss`) return `Except String`;
* a reduced loss is either the elementwise tensor (reduction `none`) or a
  scalar (`mean` / `sum`), captured by the `Reduced` type.
-/

namespace SgCG

/-- Result of a loss reduction: the elementwise tensor (reduction `"none"`)
or a scalar (`"mean"` / `"sum"`). -/
inductive Reduced where
  | elems (l : List ℝ)
  | scalar (x : ℝ)

/-- Python broadcast `tensor + scalar` (used by `loss += reg_weight * ...`):
adds a scalar to a reduced loss, elementwise when it is a tensor. -/
noncomputable def addScalar : Reduced → ℝ → Reduced
  | .elems l, c => .elems (l.map (· + c))
  | .scalar x, c => .scalar (x + c)

/-- `reduce_loss` (SgCG.py line 50): apply the named reduction.  An unknown
reduction string makes `F._Reduction.get_enum` raise, modelled by `.error`. -/
noncomputable def reduce_loss (loss : List ℝ) (reduction : String) :
    Except String Reduced :=
  if reduction = "none" then .ok (.elems loss)
  else if reduction = "mean" then .ok (.scalar (loss.sum / loss.length))
  else if reduction = "sum" then .ok (.scalar loss.sum)
  else .error "invalid reduction"

/-- The reduction part of `weight_reduce_loss` (SgCG.py lines 89–99), after
the optional elementwise weight has been applied. -/
noncomputable def weight_reduce_core (loss : List ℝ) (reduction : String)
    (avg_factor : Option ℝ) : Except String Reduced :=
  match avg_factor with
  | none => reduce_loss loss reduction
  | some af =>
      if reduction = "mean" then .ok (.scalar (loss.sum / af))
      else if reduction = "none" then .ok (.elems loss)
      else .error "avg_factor can not be used with reduction=\"sum\""

/-- `weight_reduce_loss` (SgCG.py line 70), one-dimensional case: apply the
optional elementwise weight (`loss * weight`; a length mismatch is a backend
broadcasting error), then reduce, honouring `avg_factor`. -/
noncomputable def weight_reduce_loss (loss : List ℝ) (weight : Option (List ℝ))
    (reduction : String) (avg_factor : Option ℝ) : Except String Reduced :=
  match weight with
  | some w =>
      if w.length = loss.length then
        weight_reduce_core (List.zipWith (· * ·) loss w) reduction avg_factor
      else .error "weight shape mismatch"
  | none => weight_reduce_core loss reduction avg_factor

/-! ## Label downscaler (`downscale_label_ratio`, SgCG.py lines 148–171) -/

/-- `out[out == ignore_index] = ignore_substitute` (line 162), pointwise:
replace the ignore value by the placeholder class `n`. -/
def substIgnore (n ignore_index x : ℕ) : ℕ :=
  if x = ignore_index then n else x

/-- The scale×scale input block pooled into output cell `(i, j)`: the window
of `F.avg_pool2d` with kernel size = stride = `s` (rows `i*s .. i*s+s-1`,
columns `j*s .. j*s+s-1`); trailing rows/columns not covered by a full
window are dropped. -/
def poolBlock (g : List (List ℕ)) (s i j : ℕ) : List ℕ :=
  ((g.drop (i * s)).take s).flatMap (fun row => (row.drop (j * s)).take s)

/-- Per-class occupancy of one pooled cell: the one-hot encoding over
`n + 1` channels (ignore replaced by the placeholder `n` first) averaged
over the pooling window, i.e. lines 162–166 of the source at one cell. -/
def cellRatios (g : List (List ℕ)) (s i j n ignore_index : ℕ) : List ℚ :=
  let b := (poolBlock g s i j).map (substIgnore n ignore_index)
  (List.range (n + 1)).map
    (fun c => (b.map (fun x => if x = c then (1 : ℚ) else 0)).sum / (s * s))

/-- The value component of `torch.max(..., dim=1)`: the maximum entry of a
channel vector (`0` on the empty list, which never occurs here). -/
def maxVal (l : List ℚ) : ℚ := (l.maximum).unbot' 0

/-- The index component of `torch.max(..., dim=1)`: the first index
attaining the maximum. -/
def argmaxFirst (l : List ℚ) : ℕ := l.findIdx (fun x => x = maxVal l)

/-- One output cell of `downscale_label_ratio`: channelwise max over the
pooled one-hot ratios, then the two overriding assignments of lines 168–169
in source order (placeholder arg-max → ignore, low purity → ignore). -/
def downCell (g : List (List ℕ)) (s : ℕ) ( min_ratio : ℚ)
    (n ignore_index i j : ℕ) : ℕ :=
  let r := cellRatios g s i j n ignore_index
  let gt_ratio := maxVal r
  let a := argmaxFirst r
  let v := if a = n then ignore_index else a
  if gt_ratio < min_ratio then ignore_index else v

/-- `downscale_label_ratio` (SgCG.py line 148) on one batch element of the
(batch × 1 × H × W) label tensor (the batch dimension acts elementwise).
`scale_factor = 1` returns a clone of the input; otherwise the output has
shape `(H / s, W / s)` with each cell given by `downCell`. -/
def downscale_label_ratio (gt : List (List ℕ)) (scale_factor : ℕ)
    ( min_ratio : ℚ) (n_classes ignore_index : ℕ) : List (List ℕ) :=
  if scale_factor = 1 then gt
  else
    (List.range (gt.length / scale_factor)).map (fun i =>
      (List.range ((gt.headD []).length / scale_factor)).map (fun j =>
        downCell gt scale_factor min_ratio n_classes ignore_index i j))

/-! ## Feature/mask aligner (`contrast_preparations`, SgCG.py lines 174–197) -/

/-- Raster-order token list of one batch element:
`feat.permute(0, 2, 3, 1).contiguous().view(-1, channels)` restricted to a
single (channels × H × W) image — one channel vector per spatial position,
positions in row-major order. -/
def imgTokens {α : Type} [Inhabited α] (img : List (List (List α))) :
    List (List α) :=
  (List.range (img.headD []).length).flatMap (fun h =>
    (List.range ((img.headD []).headD []).length).map (fun w =>
      img.map (fun ch => (ch.getD h []).getD w default)))

/-- The full flatten of the (batch × channels × H × W) feature tensor to
(batch·H·W) tokens of `channels` entries each, batches concatenated. -/
def flattenFeat {α : Type} [Inhabited α]
    (feat : List (List (List (List α)))) : List (List α) :=
  feat.flatMap imgTokens

/-- `mask.view(-1)` for the (batch × H × W) mask (the singleton channel of
the (batch × 1 × H × W) layout already squeezed away). -/
def flattenMask (mask : List (List (List ℕ))) : List ℕ :=
  mask.flatMap (fun img => img.flatMap (fun row => row))

/-- `contrast_preparations` (SgCG.py line 174) in the matching-resolution,
single-channel-mask case (there the nearest-neighbour resize and the
channel arg-max branches of the source are no-ops): flatten features and
mask to token lists, then drop every token whose label equals
`ignore_index` from both, in lockstep.  The `use_avg_pool`,
`scale_min_ratio` and `num_classes` parameters of the source are unused by
its body and are omitted. -/
def contrast_preparations {α : Type} [Inhabited α]
    (feat : List (List (List (List α)))) (mask : List (List (List ℕ)))
    (ignore_index : ℕ) : List (List α) × List ℕ :=
  let f := flattenFeat feat
  let m := flattenMask mask
  let pairs := (f.zip m).filter (fun p => p.2 ≠ ignore_index)
  (pairs.map Prod.fst, pairs.map Prod.snd)

/-! ## Shared numeric helpers -/

/-- Dot product of two rows (`mm` acts rowwise on the rectangular tensors of
the source). -/
noncomputable def dot (a b : List ℝ) : ℝ := (List.zipWith (· * ·) a b).sum

/-- `t.mean()` over a vector: sum divided by length. -/
noncomputable def meanList (l : List ℝ) : ℝ := l.sum / l.length

/-- `A.mm(B.permute(1, 0))`: row `i`, column `j` holds `dot (A i) (B j)`. -/
noncomputable def matMulT (A B : List (List ℝ)) : List (List ℝ) :=
  A.map (fun r => B.map (fun c => dot r c))

/-- `torch.mean(feat, 0, keepdim=True)`: the channelwise mean over tokens,
channel count read off the first row. -/
noncomputable def colMean (f : List (List ℝ)) : List ℝ :=
  (List.range (f.headD []).length).map
    (fun j => (f.map (fun row => row.getD j 0)).sum / f.length)

/-- One row of `F.cross_entropy(..., reduction='none')` with optional class
weight: `w[y] * (log Σ_j exp l_j − l_y)`. -/
noncomputable def cross_entropy_row (logits : List ℝ) (y : ℕ)
    (class_weight : Option (List ℝ)) : ℝ :=
  (match class_weight with
   | none => 1
   | some cw => cw.getD y 0) *
    (Real.log ((logits.map Real.exp).sum) - logits.getD y 0)

/-- `F.cross_entropy(logits, target, weight=class_weight, reduction='none',
ignore_index=...)`: elementwise losses, `0` at ignored targets. -/
noncomputable def cross_entropy (logits : List (List ℝ)) (target : List ℕ)
    (class_weight : Option (List ℝ)) (ignore_index : ℕ) : List ℝ :=
  (logits.zip target).map (fun p =>
    if p.2 = ignore_index then 0 else cross_entropy_row p.1 p.2 class_weight)

/-! ## Prototype regularizer (`proto_reg`, SgCG.py lines 201–221) -/

/-- `proto_reg`: similarity of the tokenwise-mean feature to every
prototype, softmax over classes, log, summed, divided by `contrast_norm`.
The zero-token early return of the source is kept although its callers
never reach it. -/
noncomputable def proto_reg (feat : List (List ℝ)) (mean : List (List ℝ))
    (contrast_temp contrast_norm : ℝ) : ℝ :=
  if feat.length = 0 then 0
  else
    let mean_feat := colMean feat
    let proto_sim := mean.map (fun mu => dot mean_feat mu / contrast_temp)
    let expRow := proto_sim.map Real.exp
    ((proto_sim.map (fun s => Real.log (Real.exp s / expRow.sum))).sum) /
      contrast_norm

/-! ## Prototype-contrastive loss (`proto_contrastive`, lines 224–279) -/

/-- The unreduced classification term of `proto_contrastive` (lines
257–267): cross-entropy of `feat ⬝ meanᵀ / contrast_temp` against the
surviving labels. -/
noncomputable def proto_token_losses (f : List (List ℝ)) (m : List ℕ)
    (mean : List (List ℝ)) (contrast_temp : ℝ)
    (class_weight : Option (List ℝ)) (ignore_index : ℕ) : List ℝ :=
  let proto_sim := (matMulT f mean).map (fun row => row.map (· / contrast_temp))
  cross_entropy proto_sim m class_weight ignore_index

/-- `proto_contrastive` (SgCG.py line 224), single-tensor case
(`index = -1`): align, early-return zero when no token survives, otherwise
classification term, weighted reduction and optional regularizer. -/
noncomputable def proto_contrastive (feat : List (List (List (List ℝ))))
    (mask : List (List (List ℕ))) (mean : List (List ℝ))
    (contrast_temp : ℝ) (num_classes : ℕ) (weight : Option (List ℝ))
    (class_weight : Option (List ℝ)) (reduction : String)
    (avg_factor : Option ℝ) (reg_weight : ℝ) (ignore_index : ℕ) :
    Except String Reduced :=
  let fm := contrast_preparations feat mask ignore_index
  if fm.1.length = 0 then .ok (.scalar 0)
  else do
    let red ← weight_reduce_loss
      (proto_token_losses fm.1 fm.2 mean contrast_temp class_weight ignore_index)
      weight reduction avg_factor
    if 0 < reg_weight then
      return addScalar red
        (reg_weight *
          proto_reg fm.1 mean contrast_temp ((num_classes : ℝ) * Real.log num_classes))
    else
      return red

/-! ## Distribution-contrastive loss (`dist_contrastive`, lines 282–353) -/

/-- The unreduced per-token loss of `dist_contrastive` (lines 317–341):
first-order similarities `feat ⬝ meanᵀ`, second-order term
`0.5 · feat² ⬝ covᵀ` with `cov = covariance * ratio / contrast_temp`
(line 320), their sum divided by the temperature as logits; the result is
the cross-entropy of those logits plus the in-class correction
`0.5 · Σ_channels (feat² ⊙ cov[label]) / contrast_temp` (line 339). -/
noncomputable def dist_token_losses (f : List (List ℝ)) (m : List ℕ)
    (mean covariance : List (List ℝ)) ( ratio contrast_temp : ℝ)
    (class_weight : Option (List ℝ)) (ignore_index : ℕ) : List ℝ :=
  let cov := covariance.map (fun row => row.map (fun x => x * ratio / contrast_temp))
  let temp1 := matMulT f mean
  let temp2 := (matMulT (f.map (fun row => row.map (fun x => x ^ 2))) cov).map
    (fun row => row.map (fun x => 0.5 * x))
  let logits := (List.zipWith (List.zipWith (· + ·)) temp1 temp2).map
    (fun row => row.map (· / contrast_temp))
  let ce_loss := cross_entropy logits m class_weight ignore_index
  let jcl_loss := (f.zip m).map (fun p =>
    0.5 * (List.zipWith (· * ·) (p.1.map (fun x => x ^ 2)) (cov.getD p.2 [])).sum
      / contrast_temp)
  List.zipWith (· + ·) ce_loss jcl_loss

/-- `dist_contrastive` (SgCG.py line 282), single-tensor case. -/
noncomputable def dist_contrastive (feat : List (List (List (List ℝ))))
    (mask : List (List (List ℕ))) (mean covariance : List (List ℝ))
    ( ratio contrast_temp : ℝ) (num_classes : ℕ) (weight : Option (List ℝ))
    (class_weight : Option (List ℝ)) (reduction : String)
    (avg_factor : Option ℝ) (reg_weight : ℝ) (ignore_index : ℕ) :
    Except String Reduced :=
  let fm := contrast_preparations feat mask ignore_index
  if fm.1.length = 0 then .ok (.scalar 0)
  else do
    let red ← weight_reduce_loss
      (dist_token_losses fm.1 fm.2 mean covariance ratio contrast_temp
        class_weight ignore_index)
      weight reduction avg_factor
    if 0 < reg_weight then
      return addScalar red
        (reg_weight *
          proto_reg fm.1 mean contrast_temp ((num_classes : ℝ) * Real.log num_classes))
    else
      return red

/-! ## Bank-contrastive loss (`bank_contrastive`, lines 356–424) -/

/-- The unreduced loss of `bank_contrastive` (lines 391–412).  Each class's
bank entry is the concatenation (`torch.cat`) of its stored exemplar rows.
For each class in turn: take the surviving tokens labelled with it, compute
temperature-divided similarities to every class's exemplars, keep the own
class's full similarity row as positives, average every other class's row
into one negative score (line 404), and set the token's loss to
`− mean_p log(exp pos_p / (exp pos_p + Σ exp neg))`; the per-class loss
vectors are concatenated in class order (line 412). -/
noncomputable def bank_token_losses (f : List (List ℝ)) (m : List ℕ)
    (bank : List (List (List ℝ))) (contrast_temp : ℝ) (num_classes : ℕ) :
    List ℝ :=
  (List.range num_classes).flatMap (fun cls =>
    let cls_feat := ((f.zip m).filter (fun p => p.2 = cls)).map Prod.fst
    cls_feat.map (fun tok =>
      let pos := (bank.getD cls []).map (fun ex => dot tok ex / contrast_temp)
      let neg := ((List.range num_classes).filter (fun idx => idx ≠ cls)).map
        (fun idx =>
          meanList ((bank.getD idx []).map (fun ex => dot tok ex / contrast_temp)))
      let sum_exp_neg := (neg.map Real.exp).sum
      Neg.neg (meanList (pos.map (fun p =>
        Real.log (Real.exp p / (Real.exp p + sum_exp_neg)))))))

/-- `bank_contrastive` (SgCG.py line 356), single-tensor case.  The source
takes no `class_weight`; `mean` is only consulted by the regularizer. -/
noncomputable def bank_contrastive (feat : List (List (List (List ℝ))))
    (mask : List (List (List ℕ))) (bank : List (List (List ℝ)))
    (mean : List (List ℝ)) (contrast_temp : ℝ) (num_classes : ℕ)
    (weight : Option (List ℝ)) (reduction : String) (avg_factor : Option ℝ)
    (reg_weight : ℝ) (ignore_index : ℕ) : Except String Reduced :=
  let fm := contrast_preparations feat mask ignore_index
  if fm.1.length = 0 then .ok (.scalar 0)
  else do
    let red ← weight_reduce_loss
      (bank_token_losses fm.1 fm.2 bank contrast_temp num_classes)
      weight reduction avg_factor
    if 0 < reg_weight then
      return addScalar red
        (reg_weight *
          proto_reg fm.1 mean contrast_temp ((num_classes : ℝ) * Real.log num_classes))
    else
      return red

/-! ## Spec-side formulas (written from the specification's words, to be
compared with the code-side definitions above) -/

/-- Spec-side per-token loss of the distribution-contrastive variant: logits
are the first-order term `tok · mean_c` plus the second-order term
`0.5 × tok² · cov_c` with the covariance row scaled by `ratio / temperature`,
the sum divided by the temperature; the loss is the class-weighted
cross-entropy of those logits at the token's label plus the in-class
correction `0.5 × Σ_channels (tok² ⊙ cov_label) / temperature`. -/
noncomputable def specDistTokenLoss (tok : List ℝ) (y : ℕ)
    (mean covariance : List (List ℝ)) ( ratio contrast_temp : ℝ)
    (class_weight : Option (List ℝ)) (num_classes : ℕ) : ℝ :=
  let scaledCov := fun c =>
    (covariance.getD c []).map (fun x => x * ratio / contrast_temp)
  let sq := tok.map (fun x => x ^ 2)
  let logit := fun c =>
    (dot tok (mean.getD c []) + 0.5 * dot sq (scaledCov c)) / contrast_temp
  let logits := (List.range num_classes).map logit
  let w := match class_weight with
    | none => (1 : ℝ)
    | some cw => cw.getD y 0
  let ce := w * (Real.log ((logits.map Real.exp).sum) - logits.getD y 0)
  ce + 0.5 * (List.zipWith (· * ·) sq (scaledCov y)).sum / contrast_temp

/-- Spec-side per-token loss of the bank-contrastive variant: the mean over
the token's positive exemplars of
`−log(exp sim_pos / (exp sim_pos + Σ_other exp (mean sim to that class)))`,
all similarities temperature-divided dot products. -/
noncomputable def specBankTokenLoss (tok : List ℝ) (cls : ℕ)
    (bank : List (List (List ℝ))) (contrast_temp : ℝ) (num_classes : ℕ) : ℝ :=
  let sim := fun ex => dot tok ex / contrast_temp
  let negSum := (((List.range num_classes).filter (fun idx => idx ≠ cls)).map
    (fun idx => Real.exp (meanList ((bank.getD idx []).map sim)))).sum
  meanList ((bank.getD cls []).map (fun ex =>
    -(Real.log (Real.exp (sim ex) / (Real.exp (sim ex) + negSum)))))

/-! ## General lemmas -/

lemma zip_map_fst_snd_self {α β : Type*} (l : List (α × β)) :
    (l.map Prod.fst).zip (l.map Prod.snd) = l := by
  induction l with
  | nil => rfl
  | cons a t ih => simp [ih]

lemma map_snd_filter_snd {α β : Type*} (p : β → Bool) :
    ∀ (f : List α) (m : List β), f.length = m.length →
      ((f.zip m).filter (fun q => p q.2)).map Prod.snd = m.filter p := by
  intro f
  induction f with
  | nil =>
    intro m h
    cases m with
    | nil => rfl
    | cons b tm => simp at h
  | cons a t ih =>
    intro m h
    cases m with
    | nil => simp at h
    | cons b tm =>
      have ht : t.length = tm.length := by simpa using h
      by_cases hb : p b
      · simp [List.filter_cons, hb, ih tm ht]
      · simp [List.filter_cons, hb, ih tm ht]

lemma prep_length_eq {α : Type} [Inhabited α]
    (feat : List (List (List (List α)))) (mask : List (List (List ℕ)))
    (ignore_index : ℕ) :
    (contrast_preparations feat mask ignore_index).1.length =
      (contrast_preparations feat mask ignore_index).2.length := by
  simp [contrast_preparations]

lemma prep_snd_mem_ne {α : Type} [Inhabited α]
    {feat : List (List (List (List α)))} {mask : List (List (List ℕ))}
    {ignore_index x : ℕ}
    (hx : x ∈ (contrast_preparations feat mask ignore_index).2) :
    x ≠ ignore_index := by
  simp only [contrast_preparations] at hx
  obtain ⟨q, hq, rfl⟩ := List.mem_map.mp hx
  have h := (List.mem_filter.mp hq).2
  simpa using h

lemma prep_nil_of_all_ignore {α : Type} [Inhabited α]
    {feat : List (List (List (List α)))} {mask : List (List (List ℕ))}
    {ignore_index : ℕ}
    (h : ∀ x ∈ flattenMask mask, x = ignore_index) :
    (contrast_preparations feat mask ignore_index).1 = [] := by
  simp only [contrast_preparations]
  simp
  intro a b hab
  exact h b (List.of_mem_zip hab).2

/-! ## Claims C3, C4: weighted reduction -/

/-- C3: without `avg_factor`, `weight_reduce_loss` is the identity on the
weighted loss for reduction `none`, its arithmetic mean for `mean`, its
total for `sum`; with `avg_factor` and `mean` it is the weighted sum
divided by `avg_factor`.  In particular for `loss = [1,2,3]`,
`weight = [1,0,1]`: `mean` gives `4/3`, `none` gives `[1,0,3]`, and `mean`
with `avg_factor = 2` gives `2`. -/
theorem claim_C3 (loss : List ℝ) (w : Option (List ℝ))
    (hw : ∀ ws ∈ w, ws.length = loss.length) :
    weight_reduce_loss loss w "none" none =
      .ok (.elems (w.elim loss (fun ws => List.zipWith (· * ·) loss ws))) ∧
    weight_reduce_loss loss w "mean" none =
      .ok (.scalar ((w.elim loss (fun ws => List.zipWith (· * ·) loss ws)).sum /
        (w.elim loss (fun ws => List.zipWith (· * ·) loss ws)).length)) ∧
    weight_reduce_loss loss w "sum" none =
      .ok (.scalar (w.elim loss (fun ws => List.zipWith (· * ·) loss ws)).sum) ∧
    (∀ af : ℝ, weight_reduce_loss loss w "mean" (some af) =
      .ok (.scalar ((w.elim loss (fun ws => List.zipWith (· * ·) loss ws)).sum / af))) ∧
    weight_reduce_loss [1, 2, 3] (some [1, 0, 1]) "mean" none = .ok (.scalar (4 / 3)) ∧
    weight_reduce_loss [1, 2, 3] (some [1, 0, 1]) "none" none = .ok (.elems [1, 0, 3]) ∧
    weight_reduce_loss [1, 2, 3] (some [1, 0, 1]) "mean" (some 2) = .ok (.scalar 2) := by
  refine ⟨?_, ?_, ?_, ?_, ?_, ?_, ?_⟩
  · cases w with
    | none => simp [weight_reduce_loss, weight_reduce_core, reduce_loss]
    | some ws => simp [weight_reduce_loss, weight_reduce_core, reduce_loss, hw ws rfl]
  · cases w with
    | none => simp [weight_reduce_loss, weight_reduce_core, reduce_loss]
    | some ws => simp [weight_reduce_loss, weight_reduce_core, reduce_loss, hw ws rfl]
  · cases w with
    | none => simp [weight_reduce_loss, weight_reduce_core, reduce_loss]
    | some ws => simp [weight_reduce_loss, weight_reduce_core, reduce_loss, hw ws rfl]
  · intro af
    cases w with
    | none => simp [weight_reduce_loss, weight_reduce_core, reduce_loss]
    | some ws => simp [weight_reduce_loss, weight_reduce_core, reduce_loss, hw ws rfl]
  · norm_num [weight_reduce_loss, weight_reduce_core, reduce_loss,
      show ("mean" : String) ≠ "none" by decide]
  · norm_num [weight_reduce_loss, weight_reduce_core, reduce_loss]
  · norm_num [weight_reduce_loss, weight_reduce_core,
      show ("mean" : String) ≠ "none" by decide]

/-- Witness for C3 at `loss = [3, 4]`, `weight = [1, 1]`. -/
theorem claim_C3_witness :
    (∀ ws ∈ (some [1, 1] : Option (List ℝ)), ws.length = ([3, 4] : List ℝ).length) ∧
    (weight_reduce_loss [3, 4] (some [1, 1]) "none" none =
      .ok (.elems ((some [1, 1] : Option (List ℝ)).elim [3, 4]
        (fun ws => List.zipWith (· * ·) [3, 4] ws))) ∧
    weight_reduce_loss [3, 4] (some [1, 1]) "mean" none =
      .ok (.scalar (((some [1, 1] : Option (List ℝ)).elim [3, 4]
          (fun ws => List.zipWith (· * ·) [3, 4] ws)).sum /
        ((some [1, 1] : Option (List ℝ)).elim [3, 4]
          (fun ws => List.zipWith (· * ·) [3, 4] ws)).length)) ∧
    weight_reduce_loss [3, 4] (some [1, 1]) "sum" none =
      .ok (.scalar ((some [1, 1] : Option (List ℝ)).elim [3, 4]
        (fun ws => List.zipWith (· * ·) [3, 4] ws)).sum) ∧
    (∀ af : ℝ, weight_reduce_loss [3, 4] (some [1, 1]) "mean" (some af) =
      .ok (.scalar (((some [1, 1] : Option (List ℝ)).elim [3, 4]
        (fun ws => List.zipWith (· * ·) [3, 4] ws)).sum / af))) ∧
    weight_reduce_loss [1, 2, 3] (some [1, 0, 1]) "mean" none = .ok (.scalar (4 / 3)) ∧
    weight_reduce_loss [1, 2, 3] (some [1, 0, 1]) "none" none = .ok (.elems [1, 0, 3]) ∧
    weight_reduce_loss [1, 2, 3] (some [1, 0, 1]) "mean" (some 2) = .ok (.scalar 2)) := by
  refine ⟨by simp, claim_C3 [3, 4] (some [1, 1]) (by simp)⟩

/-- C4: `avg_factor` together with reduction `sum` is rejected with a usage
error, while with reduction `none` the (weighted) loss is returned
unchanged, `avg_factor` having no effect. -/
theorem claim_C4 (loss : List ℝ) (w : Option (List ℝ)) (af : ℝ)
    (hw : ∀ ws ∈ w, ws.length = loss.length) :
    weight_reduce_loss loss w "sum" (some af) =
      .error "avg_factor can not be used with reduction=\"sum\"" ∧
    weight_reduce_loss loss w "none" (some af) =
      .ok (.elems (w.elim loss (fun ws => List.zipWith (· * ·) loss ws))) := by
  constructor
  · cases w with
    | none => simp [weight_reduce_loss, weight_reduce_core]
    | some ws => simp [weight_reduce_loss, weight_reduce_core, hw ws rfl]
  · cases w with
    | none => simp [weight_reduce_loss, weight_reduce_core]
    | some ws => simp [weight_reduce_loss, weight_reduce_core, hw ws rfl]

/-- Witness for C4 at `loss = [5]`, no weight, `avg_factor = 2`. -/
theorem claim_C4_witness :
    (∀ ws ∈ (none : Option (List ℝ)), ws.length = ([5] : List ℝ).length) ∧
    (weight_reduce_loss [5] none "sum" (some 2) =
      .error "avg_factor can not be used with reduction=\"sum\"" ∧
    weight_reduce_loss [5] none "none" (some 2) =
      .ok (.elems ((none : Option (List ℝ)).elim [5]
        (fun ws => List.zipWith (· * ·) [5] ws)))) := by
  exact ⟨by simp, claim_C4 [5] none 2 (by simp)⟩

/-! ## Claim C6: the aligner -/

/-- C6: the aligner keeps exactly the tokens whose label differs from the
ignore index, dropping the rest from features and labels in lockstep: the
surviving labels are the ignore-filtered flattened mask, features and
labels stay in one-to-one correspondence, and the surviving (feature, label)
rows form an order-preserving sublist of the original token rows. -/
theorem claim_C6 {α : Type} [Inhabited α] (feat : List (List (List (List α))))
    (mask : List (List (List ℕ))) (ignore_index : ℕ)
    (hlen : (flattenFeat feat).length = (flattenMask mask).length) :
    (contrast_preparations feat mask ignore_index).2 =
      (flattenMask mask).filter (fun x => x ≠ ignore_index) ∧
    (contrast_preparations feat mask ignore_index).1.length =
      (contrast_preparations feat mask ignore_index).2.length ∧
    ((contrast_preparations feat mask ignore_index).1.zip
        (contrast_preparations feat mask ignore_index).2).Sublist
      ((flattenFeat feat).zip (flattenMask mask)) := by
  refine ⟨?_, prep_length_eq feat mask ignore_index, ?_⟩
  · simpa [contrast_preparations] using
      map_snd_filter_snd (fun x => x ≠ ignore_index)
        (flattenFeat feat) (flattenMask mask) hlen
  · simp only [contrast_preparations]
    rw [zip_map_fst_snd_self]
    exact List.filter_sublist _

/-- Witness for C6 at labels `[0, 1, 255, 2]`: exactly the third token is
dropped from both outputs. -/
theorem claim_C6_witness :
    ((flattenFeat ([[[[10, 11, 12, 13]]]] : List (List (List (List ℕ))))).length =
      (flattenMask [[[0, 1, 255, 2]]]).length) ∧
    ((contrast_preparations ([[[[10, 11, 12, 13]]]] : List (List (List (List ℕ))))
        [[[0, 1, 255, 2]]] 255).2 =
      (flattenMask [[[0, 1, 255, 2]]]).filter (fun x => x ≠ 255) ∧
    (contrast_preparations ([[[[10, 11, 12, 13]]]] : List (List (List (List ℕ))))
        [[[0, 1, 255, 2]]] 255).1.length =
      (contrast_preparations ([[[[10, 11, 12, 13]]]] : List (List (List (List ℕ))))
        [[[0, 1, 255, 2]]] 255).2.length ∧
    ((contrast_preparations ([[[[10, 11, 12, 13]]]] : List (List (List (List ℕ))))
          [[[0, 1, 255, 2]]] 255).1.zip
        (contrast_preparations ([[[[10, 11, 12, 13]]]] : List (List (List (List ℕ))))
          [[[0, 1, 255, 2]]] 255).2).Sublist
      ((flattenFeat ([[[[10, 11, 12, 13]]]] : List (List (List (List ℕ))))).zip
        (flattenMask [[[0, 1, 255, 2]]]))) := by
  exact ⟨by decide, claim_C6 _ _ 255 (by decide)⟩

/-! ## Claim C7: empty-batch early return -/

/-- C7: when every token carries the ignore index, each of the three loss
variants returns the zero scalar successfully. -/
theorem claim_C7 (feat : List (List (List (List ℝ)))) (mask : List (List (List ℕ)))
    (mean covariance : List (List ℝ)) (bank : List (List (List ℝ)))
    ( ratio contrast_temp : ℝ) (num_classes : ℕ) (weight : Option (List ℝ))
    (class_weight : Option (List ℝ)) (reduction : String) (avg_factor : Option ℝ)
    (reg_weight : ℝ) (ignore_index : ℕ)
    (h : ∀ x ∈ flattenMask mask, x = ignore_index) :
    proto_contrastive feat mask mean contrast_temp num_classes weight class_weight
        reduction avg_factor reg_weight ignore_index = .ok (.scalar 0) ∧
    dist_contrastive feat mask mean covariance ratio contrast_temp num_classes
        weight class_weight reduction avg_factor reg_weight ignore_index =
      .ok (.scalar 0) ∧
    bank_contrastive feat mask bank mean contrast_temp num_classes weight
        reduction avg_factor reg_weight ignore_index = .ok (.scalar 0) := by
  have hnil := @prep_nil_of_all_ignore ℝ _ feat mask ignore_index h
  refine ⟨?_, ?_, ?_⟩
  · simp [proto_contrastive, hnil]
  · simp [dist_contrastive, hnil]
  · simp [bank_contrastive, hnil]

/-- Witness for C7: a one-token mask holding only the ignore value. -/
theorem claim_C7_witness :
    (∀ x ∈ flattenMask [[[255]]], x = 255) ∧
    (proto_contrastive [[[[1]]]] [[[255]]] [[1]] 100 19 none none "mean" none 0 255 =
      .ok (.scalar 0) ∧
    dist_contrastive [[[[1]]]] [[[255]]] [[1]] [[1]] 1 100 19 none none "mean"
        none 0 255 = .ok (.scalar 0) ∧
    bank_contrastive [[[[1]]]] [[[255]]] [[[1]]] [[1]] 100 19 none "mean" none 0
        255 = .ok (.scalar 0)) := by
  exact ⟨by decide, claim_C7 [[[[1]]]] [[[255]]] [[1]] [[1]] [[[1]]] 1 100 19 none
    none "mean" none 0 255 (by decide)⟩

/-! ## Claim C8: regularizer additivity of `proto_contrastive` -/

/-- C8: with at least one surviving token, `proto_contrastive` with
`reg_weight = 0` is exactly the weighted-and-reduced classification term,
and with `reg_weight > 0` it is that term plus `reg_weight × proto_reg`
computed with normalization constant `num_classes · log num_classes`. -/
theorem claim_C8 (feat : List (List (List (List ℝ)))) (mask : List (List (List ℕ)))
    (mean : List (List ℝ)) (contrast_temp : ℝ) (num_classes : ℕ)
    (weight : Option (List ℝ)) (class_weight : Option (List ℝ))
    (reduction : String) (avg_factor : Option ℝ) (ignore_index : ℕ)
    (h : (contrast_preparations feat mask ignore_index).1.length ≠ 0) :
    proto_contrastive feat mask mean contrast_temp num_classes weight class_weight
        reduction avg_factor 0 ignore_index =
      weight_reduce_loss
        (proto_token_losses (contrast_preparations feat mask ignore_index).1
          (contrast_preparations feat mask ignore_index).2 mean contrast_temp
          class_weight ignore_index)
        weight reduction avg_factor ∧
    ∀ reg_weight : ℝ, 0 < reg_weight →
      proto_contrastive feat mask mean contrast_temp num_classes weight class_weight
          reduction avg_factor reg_weight ignore_index =
        Except.map
          (fun red => addScalar red
            (reg_weight *
              proto_reg (contrast_preparations feat mask ignore_index).1 mean
                contrast_temp ((num_classes : ℝ) * Real.log num_classes)))
          (weight_reduce_loss
            (proto_token_losses (contrast_preparations feat mask ignore_index).1
              (contrast_preparations feat mask ignore_index).2 mean contrast_temp
              class_weight ignore_index)
            weight reduction avg_factor) := by
  constructor
  · cases hred : weight_reduce_loss
        (proto_token_losses (contrast_preparations feat mask ignore_index).1
          (contrast_preparations feat mask ignore_index).2 mean contrast_temp
          class_weight ignore_index)
        weight reduction avg_factor with
    | ok r => simp [proto_contrastive, h, hred, Bind.bind, Except.bind, pure, Except.pure]
    | error e => simp [proto_contrastive, h, hred, Bind.bind, Except.bind]
  · intro reg_weight hrw
    cases hred : weight_reduce_loss
        (proto_token_losses (contrast_preparations feat mask ignore_index).1
          (contrast_preparations feat mask ignore_index).2 mean contrast_temp
          class_weight ignore_index)
        weight reduction avg_factor with
    | ok r =>
      simp [proto_contrastive, h, hred, hrw, Bind.bind, Except.bind, Except.map,
        pure, Except.pure]
    | error e =>
      simp [proto_contrastive, h, hred, hrw, Bind.bind, Except.bind, Except.map]

/-- Witness for C8: one surviving token. -/
theorem claim_C8_witness :
    ((contrast_preparations [[[[1]]]] [[[0]]] 255).1.length ≠ 0) ∧
    (proto_contrastive [[[[1]]]] [[[0]]] [[1]] 100 19 none none "mean" none 0 255 =
      weight_reduce_loss
        (proto_token_losses (contrast_preparations [[[[1]]]] [[[0]]] 255).1
          (contrast_preparations [[[[1]]]] [[[0]]] 255).2 [[1]] 100 none 255)
        none "mean" none ∧
    ∀ reg_weight : ℝ, 0 < reg_weight →
      proto_contrastive [[[[1]]]] [[[0]]] [[1]] 100 19 none none "mean" none
          reg_weight 255 =
        Except.map
          (fun red => addScalar red
            (reg_weight *
              proto_reg (contrast_preparations [[[[1]]]] [[[0]]] 255).1 [[1]] 100
                ((19 : ℝ) * Real.log 19)))
          (weight_reduce_loss
            (proto_token_losses (contrast_preparations [[[[1]]]] [[[0]]] 255).1
              (contrast_preparations [[[[1]]]] [[[0]]] 255).2 [[1]] 100 none 255)
            none "mean" none)) := by
  have h : (contrast_preparations ([[[[1]]]] : List (List (List (List ℝ))))
      [[[0]]] 255).1.length ≠ 0 := by decide
  exact ⟨h, claim_C8 [[[[1]]]] [[[0]]] [[1]] 100 19 none none "mean" none 255 h⟩

/-! ## Counting lemmas for the bank loss -/

lemma length_filter_zip_snd {α β : Type*} (p : β → Bool) (f : List α) (m : List β)
    (hf : f.length = m.length) :
    ((f.zip m).filter (fun q => p q.2)).length = (m.filter p).length := by
  rw [← map_snd_filter_snd p f m hf, List.length_map]

lemma sum_map_add_nat (l : List ℕ) (f g : ℕ → ℕ) :
    (l.map (fun x => f x + g x)).sum = (l.map f).sum + (l.map g).sum := by
  induction l with
  | nil => simp
  | cons a t ih =>
    simp only [List.map_cons, List.sum_cons, ih]
    omega

lemma sum_indicator_range (C x : ℕ) :
    ((List.range C).map (fun cls => if x = cls then 1 else 0)).sum
      = if x < C then 1 else 0 := by
  induction C with
  | zero => simp
  | succ n ih =>
    rw [List.range_succ, List.map_append, List.sum_append, ih]
    by_cases hxn : x = n
    · subst hxn
      simp [Nat.lt_irrefl, Nat.lt_succ_self]
    · by_cases hlt : x < n
      · simp [hlt, Nat.lt_succ_of_lt hlt, hxn]
      · have h1 : ¬ x < n + 1 := by omega
        simp [hlt, h1, hxn]

lemma sum_count_filters (C : ℕ) (m : List ℕ) :
    ((List.range C).map (fun cls => (m.filter (fun x => x = cls)).length)).sum
      = (m.filter (fun x => x < C)).length := by
  induction m with
  | nil => simp
  | cons a t ih =>
    have hone : ∀ cls : ℕ, (((a :: t).filter (fun x => x = cls)).length : ℕ)
        = (if a = cls then 1 else 0) + (t.filter (fun x => x = cls)).length := by
      intro cls
      rw [List.filter_cons]
      by_cases hc : a = cls
      · simp [hc, Nat.add_comm]
      · simp [hc]
    calc ((List.range C).map
            (fun cls => ((a :: t).filter (fun x => x = cls)).length)).sum
        = ((List.range C).map (fun cls =>
            (if a = cls then 1 else 0) + (t.filter (fun x => x = cls)).length)).sum := by
          rw [List.map_congr_left (fun cls _ => hone cls)]
      _ = ((List.range C).map (fun cls => if a = cls then 1 else 0)).sum
            + ((List.range C).map (fun cls => (t.filter (fun x => x = cls)).length)).sum :=
          sum_map_add_nat _ _ _
      _ = (if a < C then 1 else 0) + (t.filter (fun x => x < C)).length := by
          rw [sum_indicator_range, ih]
      _ = ((a :: t).filter (fun x => x < C)).length := by
          rw [List.filter_cons]
          by_cases hc : a < C
          · simp [hc, Nat.add_comm]
          · simp [hc]

lemma bank_token_losses_length (f : List (List ℝ)) (m : List ℕ)
    (bank : List (List (List ℝ))) (contrast_temp : ℝ) (num_classes : ℕ)
    (hf : f.length = m.length) :
    (bank_token_losses f m bank contrast_temp num_classes).length
      = (m.filter (fun x => x < num_classes)).length := by
  rw [bank_token_losses, List.length_flatMap]
  have hinner : ∀ cls ∈ List.range num_classes,
      (List.length ∘ fun cls =>
        (((f.zip m).filter (fun p => p.2 = cls)).map Prod.fst).map (fun tok =>
          let pos := (bank.getD cls []).map (fun ex => dot tok ex / contrast_temp)
          let neg := ((List.range num_classes).filter (fun idx => idx ≠ cls)).map
            (fun idx =>
              meanList ((bank.getD idx []).map (fun ex => dot tok ex / contrast_temp)))
          let sum_exp_neg := (neg.map Real.exp).sum
          Neg.neg (meanList (pos.map (fun p =>
            Real.log (Real.exp p / (Real.exp p + sum_exp_neg))))))) cls
        = (m.filter (fun x => x = cls)).length := by
    intro cls _
    simp only [Function.comp, List.length_map]
    exact length_filter_zip_snd (fun x => x = cls) f m hf
  rw [List.map_congr_left hinner, sum_count_filters]

/-! ## Claim C9: out-of-range surviving labels are silently dropped -/

/-- C9: if some surviving token's label lies outside `[0, num_classes)`,
`bank_contrastive`'s unreduced loss has strictly fewer entries than there
are surviving tokens — the token falls into no class group and no error is
raised for it. -/
theorem claim_C9 (feat : List (List (List (List ℝ)))) (mask : List (List (List ℕ)))
    (bank : List (List (List ℝ))) (contrast_temp : ℝ)
    (num_classes ignore_index : ℕ)
    (h : ∃ x ∈ (contrast_preparations feat mask ignore_index).2,
      ¬ x < num_classes) :
    (bank_token_losses (contrast_preparations feat mask ignore_index).1
        (contrast_preparations feat mask ignore_index).2 bank contrast_temp
        num_classes).length <
      (contrast_preparations feat mask ignore_index).2.length := by
  rw [bank_token_losses_length _ _ _ _ _ (prep_length_eq feat mask ignore_index)]
  rw [List.length_filter_lt_length_iff_exists]
  simpa using h

/-- Witness for C9: surviving labels `[7, 0]` with `num_classes = 3`. -/
theorem claim_C9_witness :
    (∃ x ∈ (contrast_preparations [[[[1, 2]]]] [[[7, 0]]] 255).2, ¬ x < 3) ∧
    (bank_token_losses (contrast_preparations [[[[1, 2]]]] [[[7, 0]]] 255).1
        (contrast_preparations [[[[1, 2]]]] [[[7, 0]]] 255).2 [[[1]], [[1]], [[1]]]
        100 3).length <
      (contrast_preparations [[[[1, 2]]]] [[[7, 0]]] 255).2.length := by
  have h : ∃ x ∈ (contrast_preparations ([[[[1, 2]]]] : List (List (List (List ℝ))))
      [[[7, 0]]] (255 : ℕ)).2, ¬ x < 3 := by decide
  exact ⟨h, claim_C9 [[[[1, 2]]]] [[[7, 0]]] [[[1]], [[1]], [[1]]] 100 3 255 h⟩

/-! ## Claim C2: shape, order, value and sign of the bank loss -/

lemma sum_map_neg_real {β : Type*} (l : List β) (h : β → ℝ) :
    (l.map (fun x => -(h x))).sum = -((l.map h).sum) := by
  induction l with
  | nil => simp
  | cons a t ih => simp [ih]; ring

lemma meanList_map_neg {β : Type*} (l : List β) (h : β → ℝ) :
    meanList (l.map (fun x => -(h x))) = -(meanList (l.map h)) := by
  unfold meanList
  rw [sum_map_neg_real, List.length_map, List.length_map, neg_div]

lemma sum_nonpos_list (l : List ℝ) (h : ∀ x ∈ l, x ≤ 0) : l.sum ≤ 0 := by
  induction l with
  | nil => simp
  | cons a t ih =>
    simp only [List.sum_cons]
    have ha := h a (List.mem_cons_self a t)
    have ht := ih (fun x hx => h x (List.mem_cons_of_mem a hx))
    linarith

lemma meanList_nonpos (l : List ℝ) (h : ∀ x ∈ l, x ≤ 0) : meanList l ≤ 0 := by
  unfold meanList
  apply div_nonpos_iff.mpr
  exact Or.inr ⟨sum_nonpos_list l h, Nat.cast_nonneg _⟩

lemma bank_entry_nonneg (f : List (List ℝ)) (m : List ℕ)
    (bank : List (List (List ℝ))) (contrast_temp : ℝ) (num_classes : ℕ) :
    ∀ x ∈ bank_token_losses f m bank contrast_temp num_classes, 0 ≤ x := by
  intro x hx
  rw [bank_token_losses, List.mem_flatMap] at hx
  obtain ⟨cls, -, hx⟩ := hx
  rw [List.mem_map] at hx
  obtain ⟨tok, -, rfl⟩ := hx
  dsimp only
  rw [neg_nonneg]
  have hS : (0 : ℝ) ≤
      (((((List.range num_classes).filter (fun idx => idx ≠ cls)).map
        (fun idx => meanList ((bank.getD idx []).map
          (fun ex => dot tok ex / contrast_temp)))).map Real.exp).sum) := by
    apply List.sum_nonneg
    intro z hz
    rw [List.mem_map] at hz
    obtain ⟨w, -, rfl⟩ := hz
    exact (Real.exp_pos w).le
  apply meanList_nonpos
  intro y hy
  rw [List.mem_map] at hy
  obtain ⟨p, -, rfl⟩ := hy
  have hpos : 0 < Real.exp p +
      (((((List.range num_classes).filter (fun idx => idx ≠ cls)).map
        (fun idx => meanList ((bank.getD idx []).map
          (fun ex => dot tok ex / contrast_temp)))).map Real.exp).sum) :=
    add_pos_of_pos_of_nonneg (Real.exp_pos p) hS
  apply Real.log_nonpos
  · exact div_nonneg (Real.exp_pos p).le hpos.le
  · rw [div_le_one hpos]
    have := Real.exp_pos p
    linarith

lemma bank_token_eq_spec (f : List (List ℝ)) (m : List ℕ)
    (bank : List (List (List ℝ))) (contrast_temp : ℝ) (num_classes : ℕ) :
    bank_token_losses f m bank contrast_temp num_classes =
      (List.range num_classes).flatMap (fun cls =>
        (((f.zip m).filter (fun p => p.2 = cls)).map Prod.fst).map
          (fun tok => specBankTokenLoss tok cls bank contrast_temp num_classes)) := by
  rw [bank_token_losses]
  apply congrArg (List.flatMap (List.range num_classes))
  funext cls
  apply List.map_congr_left
  intro tok _
  dsimp only
  rw [specBankTokenLoss]
  dsimp only
  rw [List.map_map, List.map_map]
  rw [show (fun ex => -(Real.log (Real.exp (dot tok ex / contrast_temp) /
        (Real.exp (dot tok ex / contrast_temp) +
          (((List.range num_classes).filter (fun idx => idx ≠ cls)).map
            (fun idx => Real.exp (meanList ((bank.getD idx []).map
              (fun ex => dot tok ex / contrast_temp))))).sum))))
      = (fun ex => -((fun p => Real.log (Real.exp p / (Real.exp p +
          (((List.range num_classes).filter (fun idx => idx ≠ cls)).map
            (fun idx => Real.exp (meanList ((bank.getD idx []).map
              (fun ex => dot tok ex / contrast_temp))))).sum)))
          ((fun ex => dot tok ex / contrast_temp) ex))) from rfl]
  rw [meanList_map_neg]
  rfl

/-- C2: with at least one stored exemplar per class and every surviving
label in `[0, num_classes)`, the unreduced bank loss lists one entry per
surviving token arranged in class order (class-0 tokens first, then
class 1, …), each entry being the spec's per-token formula — the mean over
the token's positive exemplars of
`−log(exp pos / (exp pos + Σ_other exp (mean similarity)))` — and every
entry is non-negative. -/
theorem claim_C2 (feat : List (List (List (List ℝ))))
    (mask : List (List (List ℕ))) (bank : List (List (List ℝ)))
    (contrast_temp : ℝ) (num_classes ignore_index : ℕ)
    (hbank : ∀ c < num_classes, bank.getD c [] ≠ [])
    (hlab : ∀ x ∈ (contrast_preparations feat mask ignore_index).2,
      x < num_classes) :
    bank_token_losses (contrast_preparations feat mask ignore_index).1
        (contrast_preparations feat mask ignore_index).2 bank contrast_temp
        num_classes =
      (List.range num_classes).flatMap (fun cls =>
        ((((contrast_preparations feat mask ignore_index).1.zip
            (contrast_preparations feat mask ignore_index).2).filter
            (fun p => p.2 = cls)).map Prod.fst).map
          (fun tok => specBankTokenLoss tok cls bank contrast_temp num_classes)) ∧
    (bank_token_losses (contrast_preparations feat mask ignore_index).1
        (contrast_preparations feat mask ignore_index).2 bank contrast_temp
        num_classes).length =
      (contrast_preparations feat mask ignore_index).2.length ∧
    ∀ x ∈ bank_token_losses (contrast_preparations feat mask ignore_index).1
        (contrast_preparations feat mask ignore_index).2 bank contrast_temp
        num_classes, 0 ≤ x := by
  refine ⟨bank_token_eq_spec _ _ _ _ _, ?_, bank_entry_nonneg _ _ _ _ _⟩
  rw [bank_token_losses_length _ _ _ _ _ (prep_length_eq feat mask ignore_index)]
  rw [List.filter_eq_self.mpr]
  intro a ha
  simpa using hlab a ha

/-- Witness for C2: two surviving tokens of classes 0 and 1, one exemplar
per class. -/
theorem claim_C2_witness :
    (∀ c < 2, ([[[1]], [[2]]] : List (List (List ℝ))).getD c [] ≠ []) ∧
    (∀ x ∈ (contrast_preparations ([[[[1, 2]]]] : List (List (List (List ℝ))))
      [[[0, 1]]] 255).2, x < 2) ∧
    (bank_token_losses (contrast_preparations ([[[[1, 2]]]] :
          List (List (List (List ℝ)))) [[[0, 1]]] 255).1
        (contrast_preparations ([[[[1, 2]]]] : List (List (List (List ℝ))))
          [[[0, 1]]] 255).2 [[[1]], [[2]]] 100 2 =
      (List.range 2).flatMap (fun cls =>
        ((((contrast_preparations ([[[[1, 2]]]] : List (List (List (List ℝ))))
              [[[0, 1]]] 255).1.zip
            (contrast_preparations ([[[[1, 2]]]] : List (List (List (List ℝ))))
              [[[0, 1]]] 255).2).filter (fun p => p.2 = cls)).map Prod.fst).map
          (fun tok => specBankTokenLoss tok cls [[[1]], [[2]]] 100 2)) ∧
    (bank_token_losses (contrast_preparations ([[[[1, 2]]]] :
          List (List (List (List ℝ)))) [[[0, 1]]] 255).1
        (contrast_preparations ([[[[1, 2]]]] : List (List (List (List ℝ))))
          [[[0, 1]]] 255).2 [[[1]], [[2]]] 100 2).length =
      (contrast_preparations ([[[[1, 2]]]] : List (List (List (List ℝ))))
        [[[0, 1]]] 255).2.length ∧
    ∀ x ∈ bank_token_losses (contrast_preparations ([[[[1, 2]]]] :
          List (List (List (List ℝ)))) [[[0, 1]]] 255).1
        (contrast_preparations ([[[[1, 2]]]] : List (List (List (List ℝ))))
          [[[0, 1]]] 255).2 [[[1]], [[2]]] 100 2, 0 ≤ x) := by
  have hbank : ∀ c < 2, ([[[1]], [[2]]] : List (List (List ℝ))).getD c [] ≠ [] := by
    intro c hc
    interval_cases c <;> simp
  have hlab : ∀ x ∈ (contrast_preparations ([[[[1, 2]]]] :
      List (List (List (List ℝ)))) [[[0, 1]]] 255).2, x < 2 := by decide
  exact ⟨hbank, hlab,
    claim_C2 [[[[1, 2]]]] [[[0, 1]]] [[[1]], [[2]]] 100 2 255 hbank hlab⟩

/-! ## Claim C1: per-token loss of the distribution variant -/

lemma getD_map_list {α β : Type*} (l : List (List α)) (g : List α → List β)
    (hg : g [] = []) (i : ℕ) :
    (l.map g).getD i [] = g (l.getD i []) := by
  by_cases h : i < l.length
  · rw [List.getD_eq_getElem _ _ (by simpa using h), List.getElem_map,
      List.getD_eq_getElem _ _ h]
  · rw [List.getD_eq_default _ _ (by simpa using Nat.le_of_not_lt h),
      List.getD_eq_default _ _ (Nat.le_of_not_lt h), hg]

lemma dist_logits_row (tok : List ℝ) (mean covariance : List (List ℝ))
    ( ratio contrast_temp : ℝ) (num_classes : ℕ)
    (hmean : mean.length = num_classes) (hcov : covariance.length = num_classes) :
    (List.zipWith (· + ·) (mean.map (fun c => dot tok c))
        (((covariance.map (fun row => row.map (fun x => x * ratio / contrast_temp))).map
          (fun c => dot (tok.map (fun x => x ^ 2)) c)).map (fun x => 0.5 * x))).map
      (fun x => x / contrast_temp) =
    (List.range num_classes).map (fun c =>
      (dot tok (mean.getD c []) + 0.5 * dot (tok.map (fun x => x ^ 2))
        ((covariance.getD c []).map (fun x => x * ratio / contrast_temp))) /
        contrast_temp) := by
  apply List.ext_getElem
  · simp [hmean, hcov]
  · intro c h1 h2
    have hc : c < num_classes := by simpa using h2
    simp only [List.getElem_map, List.getElem_zipWith, List.getElem_range]
    rw [List.getD_eq_getElem _ _ (show c < mean.length by rw [hmean]; exact hc),
      List.getD_eq_getElem _ _ (show c < covariance.length by rw [hcov]; exact hc)]

lemma dist_token_losses_getD (f : List (List ℝ)) (m : List ℕ)
    (mean covariance : List (List ℝ)) ( ratio contrast_temp : ℝ)
    (cw : Option (List ℝ)) (ignore_index num_classes i : ℕ)
    (hfm : f.length = m.length) (hi : i < f.length)
    (hmean : mean.length = num_classes) (hcov : covariance.length = num_classes)
    (hig : m.getD i 0 ≠ ignore_index) :
    (dist_token_losses f m mean covariance ratio contrast_temp cw
        ignore_index).getD i 0 =
      specDistTokenLoss (f.getD i []) (m.getD i 0) mean covariance ratio
        contrast_temp cw num_classes := by
  have hm : i < m.length := hfm ▸ hi
  have hlen : (dist_token_losses f m mean covariance ratio contrast_temp cw
      ignore_index).length = f.length := by
    simp [dist_token_losses, cross_entropy, matMulT, List.length_zipWith, hfm]
  rw [List.getD_eq_getElem _ _ (by rw [hlen]; exact hi)]
  rw [List.getD_eq_getElem _ _ hi, List.getD_eq_getElem _ _ hm]
  rw [List.getD_eq_getElem _ _ hm] at hig
  simp only [dist_token_losses, cross_entropy, matMulT, List.getElem_zipWith,
    List.getElem_map, List.getElem_zip, specDistTokenLoss]
  rw [if_neg (by simpa using hig)]
  rw [dist_logits_row _ _ _ _ _ _ hmean hcov]
  rw [getD_map_list _ _ rfl (m[i])]
  simp only [cross_entropy_row]

/-- C1: in `dist_contrastive`, every surviving token's unreduced per-token
loss is the class-weighted cross-entropy of the logits — first-order term
`feat · meanᵗ` plus second-order term `0.5 × feat² · covᵗ` with the
covariance scaled by `ratio / temperature`, the sum divided by the
temperature — at the token's label (the label never equals the ignore
index), plus the in-class correction
`0.5 × Σ_channels (feat² ⊙ cov[label]) / temperature`. -/
theorem claim_C1 (feat : List (List (List (List ℝ)))) (mask : List (List (List ℕ)))
    (mean covariance : List (List ℝ)) ( ratio contrast_temp : ℝ)
    (class_weight : Option (List ℝ)) (num_classes ignore_index i : ℕ)
    (hmean : mean.length = num_classes) (hcov : covariance.length = num_classes)
    (hi : i < (contrast_preparations feat mask ignore_index).1.length) :
    (dist_token_losses (contrast_preparations feat mask ignore_index).1
        (contrast_preparations feat mask ignore_index).2 mean covariance ratio
        contrast_temp class_weight ignore_index).getD i 0 =
      specDistTokenLoss
        ((contrast_preparations feat mask ignore_index).1.getD i [])
        ((contrast_preparations feat mask ignore_index).2.getD i 0) mean
        covariance ratio contrast_temp class_weight num_classes := by
  have hi2 : i < (contrast_preparations feat mask ignore_index).2.length := by
    rw [← prep_length_eq feat mask ignore_index]; exact hi
  refine dist_token_losses_getD _ _ _ _ _ _ _ _ _ _
    (prep_length_eq feat mask ignore_index) hi hmean hcov ?_
  rw [List.getD_eq_getElem _ _ hi2]
  exact prep_snd_mem_ne (List.getElem_mem hi2)

/-- Witness for C1: one surviving token, one class, one channel. -/
theorem claim_C1_witness :
    (([[1]] : List (List ℝ)).length = 1 ∧ ([[1]] : List (List ℝ)).length = 1 ∧
      0 < (contrast_preparations ([[[[2]]]] : List (List (List (List ℝ))))
        [[[0]]] 255).1.length) ∧
    (dist_token_losses (contrast_preparations ([[[[2]]]] :
          List (List (List (List ℝ)))) [[[0]]] 255).1
        (contrast_preparations ([[[[2]]]] : List (List (List (List ℝ))))
          [[[0]]] 255).2 [[1]] [[1]] 1 100 none 255).getD 0 0 =
      specDistTokenLoss
        ((contrast_preparations ([[[[2]]]] : List (List (List (List ℝ))))
          [[[0]]] 255).1.getD 0 [])
        ((contrast_preparations ([[[[2]]]] : List (List (List (List ℝ))))
          [[[0]]] 255).2.getD 0 0) [[1]] [[1]] 1 100 none 1 := by
  have hlen : 0 < (contrast_preparations ([[[[2]]]] :
      List (List (List (List ℝ)))) [[[0]]] 255).1.length := by decide
  exact ⟨⟨rfl, rfl, hlen⟩,
    claim_C1 [[[[2]]]] [[[0]]] [[1]] [[1]] 1 100 none 1 255 0 rfl rfl hlen⟩

/-! ## Claims C5, C10: the label downscaler -/

lemma block_mul_bound (i s H : ℕ) (hi : i < H / s) : i * s + s ≤ H := by
  have h1 : (i + 1) * s ≤ (H / s) * s := Nat.mul_le_mul_right s (Nat.succ_le_of_lt hi)
  have h2 : (H / s) * s ≤ H := Nat.div_mul_le_self H s
  rw [Nat.succ_mul] at h1
  omega

lemma sum_indicator_eq_count (c : ℕ) (b : List ℕ) :
    (b.map (fun x => if x = c then (1 : ℚ) else 0)).sum = b.count c := by
  induction b with
  | nil => simp
  | cons a t ih =>
    simp only [List.map_cons, List.sum_cons, ih, List.count_cons]
    by_cases h : a = c
    · simp [h]
      push_cast
      ring
    · simp [h]

lemma cellRatios_length (g : List (List ℕ)) (s i j n ig : ℕ) :
    (cellRatios g s i j n ig).length = n + 1 := by
  simp [cellRatios]

lemma cellRatios_getElem (g : List (List ℕ)) (s i j n ig c : ℕ)
    (h : c < (cellRatios g s i j n ig).length) :
    (cellRatios g s i j n ig)[c] =
      (((poolBlock g s i j).map (substIgnore n ig)).count c : ℚ) / (s * s) := by
  simp only [cellRatios, List.getElem_map, List.getElem_range]
  rw [sum_indicator_eq_count]

lemma maxVal_mem (l : List ℚ) (hl : l ≠ []) : maxVal l ∈ l := by
  rw [maxVal]
  cases hmax : l.maximum with
  | bot =>
    exact absurd (by simpa using hmax) hl
  | coe m =>
    rw [WithBot.unbot'_coe]
    exact List.maximum_mem hmax

lemma le_maxVal (l : List ℚ) (a : ℚ) (ha : a ∈ l) : a ≤ maxVal l := by
  rw [maxVal]
  cases hmax : l.maximum with
  | bot =>
    have : l = [] := by simpa using hmax
    rw [this] at ha
    simp at ha
  | coe m =>
    rw [WithBot.unbot'_coe]
    exact List.le_maximum_of_mem ha hmax

lemma maxVal_of_strict (g : List (List ℕ)) (s i j n ig c : ℕ) (hc : c ≤ n)
    (hstrict : ∀ d, d ≤ n → d ≠ c →
      ((poolBlock g s i j).map (substIgnore n ig)).count d <
        ((poolBlock g s i j).map (substIgnore n ig)).count c) :
    maxVal (cellRatios g s i j n ig) =
      (((poolBlock g s i j).map (substIgnore n ig)).count c : ℚ) / (s * s) := by
  have hlen := cellRatios_length g s i j n ig
  have hc1 : c < (cellRatios g s i j n ig).length := by omega
  have hne : cellRatios g s i j n ig ≠ [] := by
    intro hcon; rw [hcon] at hlen; simp at hlen
  apply le_antisymm
  · obtain ⟨d, hd, hda⟩ := List.mem_iff_getElem.mp (maxVal_mem _ hne)
    rw [cellRatios_getElem g s i j n ig d hd] at hda
    rw [← hda]
    by_cases hdc : d = c
    · rw [hdc]
    · apply div_le_div_of_le
      · positivity
      · exact_mod_cast le_of_lt (hstrict d (by omega) hdc)
  · have := cellRatios_getElem g s i j n ig c hc1
    rw [← this]
    exact le_maxVal _ _ (List.getElem_mem hc1)

lemma argmax_of_strict (g : List (List ℕ)) (s i j n ig c : ℕ) (hs : 0 < s)
    (hc : c ≤ n)
    (hstrict : ∀ d, d ≤ n → d ≠ c →
      ((poolBlock g s i j).map (substIgnore n ig)).count d <
        ((poolBlock g s i j).map (substIgnore n ig)).count c) :
    argmaxFirst (cellRatios g s i j n ig) = c := by
  have hlen := cellRatios_length g s i j n ig
  have hc1 : c < (cellRatios g s i j n ig).length := by omega
  rw [argmaxFirst]
  apply (List.findIdx_eq hc1).mpr
  constructor
  · rw [cellRatios_getElem g s i j n ig c hc1,
      maxVal_of_strict g s i j n ig c hc hstrict]
    simp
  · intro d hdc
    have hd1 : d < (cellRatios g s i j n ig).length := by omega
    rw [cellRatios_getElem g s i j n ig d hd1,
      maxVal_of_strict g s i j n ig c hc hstrict]
    have hdn : d ≤ n := by omega
    have hlt : (((poolBlock g s i j).map (substIgnore n ig)).count d : ℚ) / (s * s)
        < (((poolBlock g s i j).map (substIgnore n ig)).count c : ℚ) / (s * s) := by
      apply div_lt_div_of_pos_right
      · exact_mod_cast hstrict d hdn (by omega)
      · positivity
    simp [ne_of_lt hlt]

lemma getD_getD_map_range {β : Type*} (f : ℕ → ℕ → β) (H W i j : ℕ) (d0 : β)
    (hi : i < H) (hj : j < W) :
    (((List.range H).map (fun a => (List.range W).map (fun b => f a b))).getD
        i []).getD j d0 = f i j := by
  have h1 : ((List.range H).map
      (fun a => (List.range W).map (fun b => f a b))).getD i []
      = (List.range W).map (fun b => f i b) := by
    rw [List.getD_eq_getElem _ _ (by simpa using hi), List.getElem_map,
      List.getElem_range]
  rw [h1, List.getD_eq_getElem _ _ (by simpa using hj), List.getElem_map,
    List.getElem_range]

lemma downscale_getD (g : List (List ℕ)) (s : ℕ) ( min_ratio : ℚ)
    (n ig i j : ℕ) (hs : s ≠ 1) (hi : i < g.length / s)
    (hj : j < (g.headD []).length / s) :
    ((downscale_label_ratio g s min_ratio n ig).getD i []).getD j 0 =
      downCell g s min_ratio n ig i j := by
  rw [downscale_label_ratio, if_neg hs]
  exact getD_getD_map_range (fun a b => downCell g s min_ratio n ig a b)
    _ _ i j 0 hi hj

/-- C5: an output cell of `downscale_label_ratio` holds the strict-majority
class of its `s×s` block when that class is a real class (not the ignore
placeholder) and its occupancy fraction reaches `min_ratio`; a cell whose
every class occupancy is below `min_ratio` is set to the ignore value, and
so is a cell whose strict majority is the ignore placeholder. -/
theorem claim_C5 (g : List (List ℕ)) (W s n ig i j : ℕ) ( min_ratio : ℚ)
    (hs : 1 < s) (hW : ∀ row ∈ g, row.length = W)
    (hW0 : (g.headD []).length = W)
    (hi : i < g.length / s) (hj : j < W / s) :
    (∀ c, c < n →
      (∀ d, d ≤ n → d ≠ c →
        ((poolBlock g s i j).map (substIgnore n ig)).count d <
          ((poolBlock g s i j).map (substIgnore n ig)).count c) →
      min_ratio ≤ (((poolBlock g s i j).map (substIgnore n ig)).count c : ℚ) / (s * s) →
      ((downscale_label_ratio g s min_ratio n ig).getD i []).getD j 0 = c) ∧
    ((∀ d, d ≤ n →
        (((poolBlock g s i j).map (substIgnore n ig)).count d : ℚ) / (s * s) <
          min_ratio) →
      ((downscale_label_ratio g s min_ratio n ig).getD i []).getD j 0 = ig) ∧
    ((∀ d, d < n →
        ((poolBlock g s i j).map (substIgnore n ig)).count d <
          ((poolBlock g s i j).map (substIgnore n ig)).count n) →
      ((downscale_label_ratio g s min_ratio n ig).getD i []).getD j 0 = ig) := by
  have hs0 : 0 < s := by omega
  have hs1 : s ≠ 1 := by omega
  have hj2 : j < (g.headD []).length / s := by rw [hW0]; exact hj
  refine ⟨?_, ?_, ?_⟩
  · intro c hcn hstrict hr
    rw [downscale_getD g s min_ratio n ig i j hs1 hi hj2]
    simp only [downCell]
    rw [maxVal_of_strict g s i j n ig c (by omega) hstrict,
      argmax_of_strict g s i j n ig c hs0 (by omega) hstrict]
    rw [if_neg (not_lt.mpr hr), if_neg (by omega : ¬ c = n)]
  · intro hbelow
    rw [downscale_getD g s min_ratio n ig i j hs1 hi hj2]
    simp only [downCell]
    rw [if_pos]
    have hlen := cellRatios_length g s i j n ig
    have hne : cellRatios g s i j n ig ≠ [] := by
      intro hcon; rw [hcon] at hlen; simp at hlen
    obtain ⟨d, hd, hda⟩ := List.mem_iff_getElem.mp (maxVal_mem _ hne)
    rw [cellRatios_getElem g s i j n ig d hd] at hda
    rw [← hda]
    exact hbelow d (by omega)
  · intro hstrict
    rw [downscale_getD g s min_ratio n ig i j hs1 hi hj2]
    simp only [downCell]
    have hstrict2 : ∀ d, d ≤ n → d ≠ n →
        ((poolBlock g s i j).map (substIgnore n ig)).count d <
          ((poolBlock g s i j).map (substIgnore n ig)).count n := by
      intro d hdn hne
      exact hstrict d (by omega)
    rw [argmax_of_strict g s i j n ig n hs0 le_rfl hstrict2]
    simp

/-- Witness for C5: a 2×2 block entirely of class 1, `min_ratio = 1`. -/
theorem claim_C5_witness :
    ((1 : ℕ) < 2 ∧ (∀ row ∈ ([[1, 1], [1, 1]] : List (List ℕ)), row.length = 2) ∧
      (([[1, 1], [1, 1]] : List (List ℕ)).headD []).length = 2 ∧
      (0 : ℕ) < ([[1, 1], [1, 1]] : List (List ℕ)).length / 2 ∧ (0 : ℕ) < 2 / 2) ∧
    ((∀ c, c < 3 →
      (∀ d, d ≤ 3 → d ≠ c →
        ((poolBlock [[1, 1], [1, 1]] 2 0 0).map (substIgnore 3 255)).count d <
          ((poolBlock [[1, 1], [1, 1]] 2 0 0).map (substIgnore 3 255)).count c) →
      (1 : ℚ) ≤ (((poolBlock [[1, 1], [1, 1]] 2 0 0).map
          (substIgnore 3 255)).count c : ℚ) / (2 * 2) →
      ((downscale_label_ratio [[1, 1], [1, 1]] 2 1 3 255).getD 0 []).getD 0 0 = c) ∧
    ((∀ d, d ≤ 3 →
        (((poolBlock [[1, 1], [1, 1]] 2 0 0).map
          (substIgnore 3 255)).count d : ℚ) / (2 * 2) < 1) →
      ((downscale_label_ratio [[1, 1], [1, 1]] 2 1 3 255).getD 0 []).getD 0 0 = 255) ∧
    ((∀ d, d < 3 →
        ((poolBlock [[1, 1], [1, 1]] 2 0 0).map (substIgnore 3 255)).count d <
          ((poolBlock [[1, 1], [1, 1]] 2 0 0).map (substIgnore 3 255)).count 3) →
      ((downscale_label_ratio [[1, 1], [1, 1]] 2 1 3 255).getD 0 []).getD 0 0 = 255)) := by
  exact ⟨⟨by omega, by decide, by decide, by decide, by decide⟩,
    claim_C5 [[1, 1], [1, 1]] 2 2 3 255 0 0 1 (by omega) (by decide) (by decide)
      (by decide) (by decide)⟩

lemma poolBlock_truncate (g : List (List ℕ)) (s i j K L : ℕ)
    (hiK : i * s + s ≤ K) (hjL : j * s + s ≤ L) :
    poolBlock ((g.take K).map (fun row => row.take L)) s i j =
      poolBlock g s i j := by
  rw [poolBlock, poolBlock]
  have hrows : (((g.take K).map (fun row => row.take L)).drop (i * s)).take s
      = ((g.drop (i * s)).take s).map (fun row => row.take L) := by
    rw [← List.map_drop, ← List.map_take]
    congr 1
    rw [List.drop_take, List.take_take]
    congr 1
    omega
  rw [hrows, List.flatMap_map]
  apply congrArg (List.flatMap ((g.drop (i * s)).take s))
  funext row
  show ((row.take L).drop (j * s)).take s = (row.drop (j * s)).take s
  rw [List.drop_take, List.take_take]
  congr 1
  omega

lemma downCell_truncate (g : List (List ℕ)) (s : ℕ) ( min_ratio : ℚ)
    (n ig i j K L : ℕ) (hiK : i * s + s ≤ K) (hjL : j * s + s ≤ L) :
    downCell ((g.take K).map (fun row => row.take L)) s min_ratio n ig i j =
      downCell g s min_ratio n ig i j := by
  simp only [downCell, cellRatios, poolBlock_truncate g s i j K L hiK hjL]

/-- C10: for a scale factor `s > 1`, `downscale_label_ratio` produces a map
of shape `(⌊H/s⌋, ⌊W/s⌋)`, and the trailing `H mod s` rows and `W mod s`
columns of the input have no effect: the output equals that of the input
truncated to `⌊H/s⌋·s` rows and `⌊W/s⌋·s` columns. -/
theorem claim_C10 (g : List (List ℕ)) (W s n ig : ℕ) ( min_ratio : ℚ)
    (hs : 1 < s) (hW : ∀ row ∈ g, row.length = W)
    (hW0 : (g.headD []).length = W) :
    (downscale_label_ratio g s min_ratio n ig).length = g.length / s ∧
    (∀ row ∈ downscale_label_ratio g s min_ratio n ig, row.length = W / s) ∧
    downscale_label_ratio g s min_ratio n ig =
      downscale_label_ratio
        ((g.take (g.length / s * s)).map (fun row => row.take (W / s * s)))
        s min_ratio n ig := by
  have hs0 : 0 < s := by omega
  have hs1 : s ≠ 1 := by omega
  refine ⟨?_, ?_, ?_⟩
  · rw [downscale_label_ratio, if_neg hs1]
    simp
  · intro row hrow
    rw [downscale_label_ratio, if_neg hs1] at hrow
    obtain ⟨a, ha, rfl⟩ := List.mem_map.mp hrow
    simp only [List.length_map, List.length_range]
    rw [hW0]
  · by_cases hH : g.length / s = 0
    · rw [downscale_label_ratio, downscale_label_ratio, if_neg hs1, if_neg hs1]
      simp [hH]
    · have hlen' : ((g.take (g.length / s * s)).map
          (fun row => row.take (W / s * s))).length = g.length / s * s := by
        rw [List.length_map, List.length_take]
        have := Nat.div_mul_le_self g.length s
        omega
      have hheadlen : (((g.take (g.length / s * s)).map
          (fun row => row.take (W / s * s))).headD []).length = W / s * s := by
        cases hg : g with
        | nil =>
          rw [hg] at hH
          simp at hH
        | cons r t =>
          have hK : g.length / s * s ≠ 0 := by
            intro hcon
            rcases Nat.mul_eq_zero.mp hcon with h0 | h0
            · exact hH h0
            · omega
          obtain ⟨k, hk⟩ := Nat.exists_eq_succ_of_ne_zero hK
          rw [← hg, hk]
          rw [hg, List.take_succ_cons, List.map_cons]
          simp only [List.headD_cons]
          rw [List.length_take]
          have hr : r.length = W := hW r (by rw [hg]; exact List.mem_cons_self r t)
          have := Nat.div_mul_le_self W s
          omega
      rw [downscale_label_ratio, downscale_label_ratio, if_neg hs1, if_neg hs1]
      have houter : ((g.take (g.length / s * s)).map
          (fun row => row.take (W / s * s))).length / s = g.length / s := by
        rw [hlen', Nat.mul_div_cancel _ hs0]
      have hinner : (((g.take (g.length / s * s)).map
          (fun row => row.take (W / s * s))).headD []).length / s =
          (g.headD []).length / s := by
        rw [hheadlen, Nat.mul_div_cancel _ hs0, hW0]
      rw [houter, hinner]
      apply List.map_congr_left
      intro a ha
      apply List.map_congr_left
      intro b hb
      have haH : a < g.length / s := List.mem_range.mp ha
      have hbW : b < (g.headD []).length / s := List.mem_range.mp hb
      have haK : a * s + s ≤ g.length / s * s := by
        have h1 : (a + 1) * s ≤ (g.length / s) * s :=
          Nat.mul_le_mul_right s (Nat.succ_le_of_lt haH)
        rw [Nat.succ_mul] at h1
        omega
      have hbL : b * s + s ≤ W / s * s := by
        have hbW2 : b < W / s := by rw [← hW0]; exact hbW
        have h1 : (b + 1) * s ≤ (W / s) * s :=
          Nat.mul_le_mul_right s (Nat.succ_le_of_lt hbW2)
        rw [Nat.succ_mul] at h1
        omega
      exact (downCell_truncate g s min_ratio n ig a b _ _ haK hbL).symm

/-- Witness for C10: a 3×3 grid with scale 2 — the last row and column are
discarded. -/
theorem claim_C10_witness :
    ((1 : ℕ) < 2 ∧
      (∀ row ∈ ([[1, 2, 3], [4, 5, 6], [7, 8, 9]] : List (List ℕ)),
        row.length = 3) ∧
      (([[1, 2, 3], [4, 5, 6], [7, 8, 9]] : List (List ℕ)).headD []).length = 3) ∧
    ((downscale_label_ratio [[1, 2, 3], [4, 5, 6], [7, 8, 9]] 2 1 9 255).length =
      ([[1, 2, 3], [4, 5, 6], [7, 8, 9]] : List (List ℕ)).length / 2 ∧
    (∀ row ∈ downscale_label_ratio [[1, 2, 3], [4, 5, 6], [7, 8, 9]] 2 1 9 255,
      row.length = 3 / 2) ∧
    downscale_label_ratio [[1, 2, 3], [4, 5, 6], [7, 8, 9]] 2 1 9 255 =
      downscale_label_ratio
        ((([[1, 2, 3], [4, 5, 6], [7, 8, 9]] : List (List ℕ)).take
            (([[1, 2, 3], [4, 5, 6], [7, 8, 9]] : List (List ℕ)).length / 2 * 2)).map
          (fun row => row.take (3 / 2 * 2)))
        2 1 9 255) := by
  exact ⟨⟨by omega, by decide, by decide⟩,
    claim_C10 [[1, 2, 3], [4, 5, 6], [7, 8, 9]] 3 2 9 255 1 (by omega) (by decide)
      (by decide)⟩

end SgCG
